import Mathlib

/-!
Shallow embedding of the pagination subsystem of `blackhorseya/go-ddd`
(`internal/domain/pagination.go`), together with theorems settling the
behavioural claims about it.

Go strings are byte sequences; we model them as `List Nat` with each byte
below 256.  Go `int`/`int64` arithmetic is modelled over `Int`; Go's `/`
and `%` on integers truncate toward zero, which is `Int.tdiv` / `Int.tmod`.
Go panics (division by zero) are modelled by returning `none` from an
`Option`; Go `error` returns are modelled with `Except`.
-/

namespace GoDDD

/-- Model of a Go string: a sequence of bytes. -/
abbrev GoString := List Nat

/-- Well-formedness of a Go string: every byte fits in 8 bits. -/
abbrev GoString.WF (s : GoString) : Prop := ∀ b ∈ s, b < 256

/-- The pagination errors declared at the top of `pagination.go`
(`ErrInvalidPage`, `ErrInvalidPageSize`, `ErrInvalidCursor`). -/
inductive PaginationError where
  | invalidPage
  | invalidPageSize
  | invalidCursor
deriving DecidableEq, Repr

/-- Constant `DefaultPage = 1`. -/
def DefaultPage : Int := 1

/-- Constant `DefaultPageSize = 20`. -/
def DefaultPageSize : Int := 20

/-- Constant `MaxPageSize = 1000`. -/
def MaxPageSize : Int := 1000

/-- Direction of a sort clause; `SortDirection` is a string type in Go. -/
abbrev SortDirection := GoString

/-- Constant `SortAsc = "asc"`. -/
def SortAsc : SortDirection := [97, 115, 99]

/-- Constant `SortDesc = "desc"`. -/
def SortDesc : SortDirection := [100, 101, 115, 99]

/-- Value object `SortOption`: a field plus direction sort clause. -/
structure SortOption where
  field : GoString
  direction : SortDirection
deriving DecidableEq, Repr

/-- Constructor `NewSortOption`: unrecognized directions fall back to `SortAsc`. -/
def NewSortOption (field : GoString) (direction : SortDirection) : SortOption :=
  if direction ≠ SortAsc ∧ direction ≠ SortDesc then
    { field := field, direction := SortAsc }
  else
    { field := field, direction := direction }

/-- Accessor `SortOption.IsAscending`. -/
def SortOption.IsAscending (s : SortOption) : Bool := s.direction = SortAsc

/-- Value object `PageRequest`: offset-based pagination request. -/
structure PageRequest where
  page : Int
  pageSize : Int
  sort : List SortOption
deriving DecidableEq, Repr

/-- Constructor `NewPageRequest`: validates `page ≥ 1` first, then
`1 ≤ pageSize ≤ MaxPageSize`. -/
def NewPageRequest (page pageSize : Int) : Except PaginationError PageRequest :=
  if page < 1 then
    .error .invalidPage
  else if pageSize < 1 ∨ pageSize > MaxPageSize then
    .error .invalidPageSize
  else
    .ok { page := page, pageSize := pageSize, sort := [] }

/-- Constructor `NewPageRequestWithDefaults`. -/
def NewPageRequestWithDefaults : PageRequest :=
  { page := DefaultPage, pageSize := DefaultPageSize, sort := [] }

/-- Method `PageRequest.WithSort`: builds a fresh request whose `sort` is
exactly the given list (replace, not append). -/
def PageRequest.WithSort (p : PageRequest) (sort : List SortOption) : PageRequest :=
  { page := p.page, pageSize := p.pageSize, sort := sort }

/-- Accessor `PageRequest.Offset`. -/
def PageRequest.Offset (p : PageRequest) : Int := (p.page - 1) * p.pageSize

/-- Accessor `PageRequest.Limit`. -/
def PageRequest.Limit (p : PageRequest) : Int := p.pageSize

/-- Value object `PageResult[T]`. -/
structure PageResult (T : Type) where
  items : List T
  page : Int
  pageSize : Int
  totalItems : Int
  totalPages : Int
deriving Repr

/-- Constructor `NewPageResult`: `totalPages := int(totalItems) / pageSize`, Go's
truncating division, incremented when `int(totalItems) % pageSize > 0`.
The Go code divides unguarded; division by zero panics in Go, modelled
here by `none` exactly when `pageSize = 0`. -/
def NewPageResult {T : Type} (items : List T) (page pageSize totalItems : Int) :
    Option (PageResult T) :=
  if pageSize = 0 then
    none
  else
    let d := totalItems.tdiv pageSize
    let totalPages := if totalItems.tmod pageSize > 0 then d + 1 else d
    some { items := items, page := page, pageSize := pageSize,
           totalItems := totalItems, totalPages := totalPages }

/-- Accessor `PageResult.HasNext`. -/
def PageResult.HasNext {T : Type} (r : PageResult T) : Bool := r.page < r.totalPages

/-- Accessor `PageResult.HasPrev`. -/
def PageResult.HasPrev {T : Type} (r : PageResult T) : Bool := r.page > 1

/-- Value object `CursorRequest`: cursor-based pagination request. -/
structure CursorRequest where
  cursor : GoString
  pageSize : Int
  sort : List SortOption
deriving DecidableEq, Repr

/-- Constructor `NewCursorRequest`. -/
def NewCursorRequest (cursor : GoString) (pageSize : Int) :
    Except PaginationError CursorRequest :=
  if pageSize < 1 ∨ pageSize > MaxPageSize then
    .error .invalidPageSize
  else
    .ok { cursor := cursor, pageSize := pageSize, sort := [] }

/-- Method `CursorRequest.WithSort`: replace, not append. -/
def CursorRequest.WithSort (c : CursorRequest) (sort : List SortOption) : CursorRequest :=
  { cursor := c.cursor, pageSize := c.pageSize, sort := sort }

/-! ### Base64 (URL-safe alphabet, with padding)

`encoding/base64`'s `base64.URLEncoding`: the RFC 4648 URL-safe alphabet
`A-Z a-z 0-9 - _` with `=` padding.  `DecodeString` skips `\r` and `\n`,
requires the remaining length to be a multiple of four, allows padding
only at the end, and (being the non-strict encoding) discards non-zero
trailing bits rather than rejecting them. -/

/-- Byte of the URL-safe base64 alphabet at a 6-bit index. -/
def b64EncChar (i : Nat) : Nat :=
  if i < 26 then 65 + i
  else if i < 52 then 97 + (i - 26)
  else if i < 62 then 48 + (i - 52)
  else if i = 62 then 45
  else 95

/-- Inverse alphabet lookup: 6-bit value of a byte, `none` for bytes
outside the URL-safe alphabet (`=` included). -/
def b64DecChar (c : Nat) : Option Nat :=
  if 65 ≤ c ∧ c ≤ 90 then some (c - 65)
  else if 97 ≤ c ∧ c ≤ 122 then some (c - 97 + 26)
  else if 48 ≤ c ∧ c ≤ 57 then some (c - 48 + 52)
  else if c = 45 then some 62
  else if c = 95 then some 63
  else none

/-- Base64 encoding of a byte sequence: three input bytes become four
alphabet bytes; a trailing group of one or two bytes is padded with `=`
(byte 61). -/
def b64Encode : List Nat → List Nat
  | [] => []
  | [a] =>
      [b64EncChar (a / 4), b64EncChar (a % 4 * 16), 61, 61]
  | [a, b] =>
      [b64EncChar (a / 4), b64EncChar (a % 4 * 16 + b / 16),
       b64EncChar (b % 16 * 4), 61]
  | a :: b :: c :: rest =>
      b64EncChar (a / 4) :: b64EncChar (a % 4 * 16 + b / 16) ::
      b64EncChar (b % 16 * 4 + c / 64) :: b64EncChar (c % 64) ::
      b64Encode rest

/-- Base64 decoding of a newline-free byte sequence, one four-byte quantum
at a time; `none` on a dangling group, a byte outside the alphabet, or
padding not at the end. -/
def b64DecodeQuads : List Nat → Option (List Nat)
  | [] => some []
  | c1 :: c2 :: c3 :: c4 :: rest => do
      let d1 ← b64DecChar c1
      let d2 ← b64DecChar c2
      if c3 = 61 then
        if c4 = 61 ∧ rest = [] then
          some [d1 * 4 + d2 / 16]
        else
          none
      else do
        let d3 ← b64DecChar c3
        if c4 = 61 then
          if rest = [] then
            some [d1 * 4 + d2 / 16, d2 % 16 * 16 + d3 / 4]
          else
            none
        else do
          let d4 ← b64DecChar c4
          let tail ← b64DecodeQuads rest
          some ((d1 * 4 + d2 / 16) :: (d2 % 16 * 16 + d3 / 4) ::
                (d3 % 4 * 64 + d4) :: tail)
  | _ => none

/-- Model of `base64.URLEncoding.EncodeToString`. -/
def base64URLEncodeToString (src : List Nat) : GoString := b64Encode src

/-- Model of `base64.URLEncoding.DecodeString`: carriage returns (13) and
newlines (10) are skipped, then the input is decoded in four-byte quanta. -/
def base64URLDecodeString (s : GoString) : Option (List Nat) :=
  b64DecodeQuads (s.filter fun c => !(c == 10 || c == 13))

/-! ### Cursor codec (`EncodeCursor` / `DecodeCursor` / `DecodeCursorSingle`) -/

/-- Constant `cursorSeparator = "\x00"`: the single NUL byte. -/
def cursorSeparator : Nat := 0

/-- Codec function `EncodeCursor`: empty input yields the empty string; the
values are joined with the NUL separator and base64url-encoded. -/
def EncodeCursor (values : List GoString) : GoString :=
  if values.length = 0 then []
  else base64URLEncodeToString (List.intercalate [cursorSeparator] values)

/-- Codec function `DecodeCursor`: the empty cursor yields no values and no error; a
base64 failure yields `ErrInvalidCursor`; otherwise the decoded bytes are
split on the NUL separator. -/
def DecodeCursor (cursor : GoString) : Except PaginationError (List GoString) :=
  if cursor = [] then .ok []
  else
    match base64URLDecodeString cursor with
    | none => .error .invalidCursor
    | some decoded => .ok (decoded.splitOn cursorSeparator)

/-- Codec function `DecodeCursorSingle`: decodes and insists on exactly one value. -/
def DecodeCursorSingle (cursor : GoString) : Except PaginationError GoString :=
  match DecodeCursor cursor with
  | .error e => .error e
  | .ok values =>
      if values.length ≠ 1 then .error .invalidCursor
      else .ok (values.headD [])

/-! ### Helper lemmas: base64 round trip -/

/-- Every alphabet byte is at least 45 and is never the padding byte 61. -/
lemma b64EncChar_lower (i : Nat) : 45 ≤ b64EncChar i ∧ b64EncChar i ≠ 61 := by
  unfold b64EncChar; split_ifs <;> omega

/-- Decoding inverts encoding on 6-bit indices. -/
lemma b64DecChar_b64EncChar : ∀ i < 64, b64DecChar (b64EncChar i) = some i := by decide

/-- Every byte produced by the base64 encoder is at least 45. -/
lemma mem_b64Encode_lower (bs : List Nat) : ∀ x ∈ b64Encode bs, 45 ≤ x := by
  induction bs using b64Encode.induct with
  | case1 => simp [b64Encode]
  | case2 a =>
      intro x hx
      simp only [b64Encode, List.mem_cons, List.not_mem_nil, or_false] at hx
      rcases hx with rfl | rfl | rfl | rfl <;>
        first | exact (b64EncChar_lower _).1 | omega
  | case3 a b =>
      intro x hx
      simp only [b64Encode, List.mem_cons, List.not_mem_nil, or_false] at hx
      rcases hx with rfl | rfl | rfl | rfl <;>
        first | exact (b64EncChar_lower _).1 | omega
  | case4 a b c rest ih =>
      intro x hx
      simp only [b64Encode, List.mem_cons] at hx
      rcases hx with rfl | rfl | rfl | rfl | hx
      · exact (b64EncChar_lower _).1
      · exact (b64EncChar_lower _).1
      · exact (b64EncChar_lower _).1
      · exact (b64EncChar_lower _).1
      · exact ih x hx

/-- Encoded output contains no carriage return or newline, so the
decoder-side filter leaves it untouched. -/
lemma filter_b64Encode (bs : List Nat) :
    (b64Encode bs).filter (fun c => !(c == 10 || c == 13)) = b64Encode bs := by
  rw [List.filter_eq_self]
  intro a ha
  have := mem_b64Encode_lower bs a ha
  simp only [Bool.not_eq_true', Bool.or_eq_false_iff, beq_eq_false_iff_ne, ne_eq]
  omega

/-- Quantum-level base64 round trip over 8-bit bytes. -/
lemma b64DecodeQuads_b64Encode (bs : List Nat) (h : ∀ x ∈ bs, x < 256) :
    b64DecodeQuads (b64Encode bs) = some bs := by
  induction bs using b64Encode.induct with
  | case1 => rfl
  | case2 a =>
      have ha : a < 256 := h a (by simp)
      simp only [b64Encode, b64DecodeQuads]
      rw [b64DecChar_b64EncChar (a / 4) (by omega),
          b64DecChar_b64EncChar (a % 4 * 16) (by omega)]
      simp
      omega
  | case3 a b =>
      have ha : a < 256 := h a (by simp)
      have hb : b < 256 := h b (by simp)
      have h3 := (b64EncChar_lower (b % 16 * 4)).2
      simp only [b64Encode, b64DecodeQuads]
      rw [b64DecChar_b64EncChar (a / 4) (by omega),
          b64DecChar_b64EncChar (a % 4 * 16 + b / 16) (by omega),
          b64DecChar_b64EncChar (b % 16 * 4) (by omega)]
      simp [h3]
      omega
  | case4 a b c rest ih =>
      have ha : a < 256 := h a (by simp)
      have hb : b < 256 := h b (by simp)
      have hc : c < 256 := h c (by simp)
      have h3 := (b64EncChar_lower (b % 16 * 4 + c / 64)).2
      have h4 := (b64EncChar_lower (c % 64)).2
      have ih' := ih (fun x hx => h x (by simp [hx]))
      simp only [b64Encode, b64DecodeQuads]
      rw [b64DecChar_b64EncChar (a / 4) (by omega),
          b64DecChar_b64EncChar (a % 4 * 16 + b / 16) (by omega),
          b64DecChar_b64EncChar (b % 16 * 4 + c / 64) (by omega),
          b64DecChar_b64EncChar (c % 64) (by omega)]
      simp [h3, h4, ih']
      omega

/-- String-level base64 round trip, the composition of the filter identity
and the quantum-level round trip. -/
lemma base64URL_roundtrip (bs : List Nat) (h : ∀ x ∈ bs, x < 256) :
    base64URLDecodeString (base64URLEncodeToString bs) = some bs := by
  unfold base64URLEncodeToString base64URLDecodeString
  rw [filter_b64Encode, b64DecodeQuads_b64Encode bs h]

/-! ### Helper lemmas: joining and splitting on the NUL separator -/

/-- Intercalating a one-element list of lists is the element itself. -/
lemma intercalate_single (s v : List Nat) : List.intercalate s [v] = v := by
  simp [List.intercalate]

/-- Unfolding step for intercalation of a two-or-more-element list. -/
lemma intercalate_cons_cons (s v w : List Nat) (rest : List (List Nat)) :
    List.intercalate s (v :: w :: rest) = v ++ s ++ List.intercalate s (w :: rest) := by
  simp [List.intercalate]

/-- Encoding a non-empty byte sequence yields a non-empty token. -/
lemma b64Encode_ne_nil {bs : List Nat} (h : bs ≠ []) : b64Encode bs ≠ [] := by
  cases bs with
  | nil => exact absurd rfl h
  | cons a t =>
    cases t with
    | nil => simp [b64Encode]
    | cons b u =>
      cases u with
      | nil => simp [b64Encode]
      | cons c r => simp [b64Encode]

/-- The joined byte sequence is empty only for no values or a lone empty
value. -/
lemma intercalate_sep_ne_nil {values : List GoString}
    (h1 : values ≠ []) (h2 : values ≠ [[]]) :
    List.intercalate [cursorSeparator] values ≠ [] := by
  cases values with
  | nil => exact absurd rfl h1
  | cons v rest =>
    cases rest with
    | nil =>
        rw [intercalate_single]
        intro hv
        exact h2 (by rw [hv])
    | cons w rest' =>
        rw [intercalate_cons_cons]
        simp

/-- Joining well-formed strings with the NUL separator stays within 8-bit
bytes. -/
lemma mem_intercalate_lt {values : List GoString}
    (hwf : ∀ v ∈ values, GoString.WF v) :
    ∀ x ∈ List.intercalate [cursorSeparator] values, x < 256 := by
  induction values with
  | nil => simp [List.intercalate]
  | cons v rest ih =>
    cases rest with
    | nil =>
        rw [intercalate_single]
        exact fun x hx => hwf v (by simp) x hx
    | cons w rest' =>
        rw [intercalate_cons_cons]
        intro x hx
        rcases List.mem_append.mp hx with hx' | hx'
        · rcases List.mem_append.mp hx' with h1 | h1
          · exact hwf v (by simp) x h1
          · simp only [List.mem_singleton] at h1
            subst h1
            simp [cursorSeparator]
        · exact ih (fun u hu => hwf u (List.mem_cons_of_mem _ hu)) x hx'

/-! ### Helper lemma: Go truncating division against floor division -/

/-- For a positive divisor, Go's truncating quotient bumped on a positive
truncating remainder agrees with the floor quotient bumped on a positive
(nonnegative) remainder; both compute the ceiling of the exact quotient. -/
lemma tdiv_tmod_ceil (a b : Int) (hb : 1 ≤ b) :
    (if 0 < a.tmod b then a.tdiv b + 1 else a.tdiv b)
      = a.fdiv b + (if 0 < a % b then 1 else 0) := by
  rw [Int.fdiv_eq_ediv _ (by omega)]
  rcases Int.le_or_lt 0 a with ha | ha
  · rw [Int.tdiv_eq_ediv ha (by omega), Int.tmod_eq_emod ha (by omega)]
    split_ifs <;> omega
  · by_cases hdvd : b ∣ a
    · rw [Int.tdiv_eq_ediv_of_dvd hdvd, Int.tmod_eq_zero_of_dvd hdvd,
          Int.emod_eq_zero_of_dvd hdvd]
      simp
    · have hb0 : 0 < b := by omega
      have hq := Int.ediv_add_emod a b
      have hr0 : 0 ≤ a % b := Int.emod_nonneg a (by omega)
      have hrb : a % b < b := Int.emod_lt_of_pos a hb0
      have hrne : a % b ≠ 0 := fun hc => hdvd (Int.dvd_of_emod_eq_zero hc)
      have hneg : (-a) / b = -(a / b) - 1 := by
        have huniq := (Int.ediv_emod_unique (a := -a) (b := b)
          (r := b - a % b) (q := -(a / b) - 1) hb0).mpr
        exact (huniq ⟨by linear_combination -hq, by omega, by omega⟩).1
      have htd : a.tdiv b = a / b + 1 := by
        have h1 : (-a).tdiv b = (-a) / b := Int.tdiv_eq_ediv (by omega) (by omega)
        have h2 : (-a).tdiv b = -(a.tdiv b) := Int.neg_tdiv a b
        omega
      have htm : a.tmod b = a % b - b := by
        have h3 := Int.tdiv_add_tmod a b
        rw [htd] at h3
        linear_combination h3 - hq
      rw [htd, htm]
      split_ifs <;> omega

/-! ### Claim theorems -/

/-- C1 (counterexample): the round-trip claim fails at the singleton list
holding the empty string. The input is non-empty and free of NUL bytes,
encoding returns the empty token, and decoding that token yields the empty
list of values rather than the original singleton. -/
theorem claim1_roundtrip_counterexample :
    ([([] : GoString)] ≠ ([] : List GoString))
    ∧ (∀ v ∈ [([] : GoString)], cursorSeparator ∉ v)
    ∧ EncodeCursor [([] : GoString)] = []
    ∧ DecodeCursor (EncodeCursor [([] : GoString)]) = .ok []
    ∧ (([] : List GoString) ≠ [([] : GoString)]) := by
  refine ⟨by decide, by decide, rfl, rfl, by decide⟩

/-- C1 (amended): for every non-empty sequence of well-formed strings,
none containing the NUL byte, and distinct from the singleton empty
string (whose encoding collapses to the empty "no cursor" token),
`DecodeCursor` after `EncodeCursor` succeeds and returns exactly the
original values in order. -/
theorem claim1_cursor_roundtrip (values : List GoString)
    (hne : values ≠ []) (hnz : values ≠ [[]])
    (hwf : ∀ v ∈ values, GoString.WF v)
    (hsep : ∀ v ∈ values, cursorSeparator ∉ v) :
    DecodeCursor (EncodeCursor values) = .ok values := by
  unfold EncodeCursor
  rw [if_neg (by simpa [List.length_eq_zero] using hne)]
  unfold DecodeCursor
  rw [if_neg (by
    unfold base64URLEncodeToString
    exact b64Encode_ne_nil (intercalate_sep_ne_nil hne hnz))]
  rw [base64URL_roundtrip _ (mem_intercalate_lt hwf)]
  simp only []
  exact congrArg Except.ok (List.splitOn_intercalate values cursorSeparator hsep hne)

/-- C1 (witness): the amended round trip at the spec's concrete example,
the values "2024-01-01" and "order-123" as byte strings. -/
theorem claim1_cursor_roundtrip_witness :
    DecodeCursor (EncodeCursor
        [[50, 48, 50, 52, 45, 48, 49, 45, 48, 49],
         [111, 114, 100, 101, 114, 45, 49, 50, 51]])
      = .ok [[50, 48, 50, 52, 45, 48, 49, 45, 48, 49],
             [111, 114, 100, 101, 114, 45, 49, 50, 51]] :=
  claim1_cursor_roundtrip _ (by decide) (by decide) (by decide) (by decide)

/-- C2: for every page result built with a positive page size, the stored
total-page count is the floor quotient of total items by page size plus
one exactly when the remainder is positive (0 when there are 0 items),
`HasNext` holds exactly when the page is below the total-page count, and
`HasPrev` holds exactly when the page exceeds 1. `Int.fdiv` is floor
division and `%` is the nonnegative remainder for the positive divisor. -/
theorem claim2_pageResult_invariants {T : Type} (items : List T)
    (page pageSize totalItems : Int) (hps : 1 ≤ pageSize) (r : PageResult T)
    (h : NewPageResult items page pageSize totalItems = some r) :
    r.totalPages = totalItems.fdiv pageSize + (if 0 < totalItems % pageSize then 1 else 0)
    ∧ (r.HasNext = true ↔ r.page < r.totalPages)
    ∧ (r.HasPrev = true ↔ 1 < r.page) := by
  unfold NewPageResult at h
  rw [if_neg (by omega)] at h
  simp only [Option.some.injEq] at h
  subst h
  refine ⟨?_, ?_, ?_⟩
  · exact tdiv_tmod_ceil totalItems pageSize hps
  · simp [PageResult.HasNext]
  · simp [PageResult.HasPrev]

/-- C2 (witness): the spec example with 50 items in pages of 20 yields 3
total pages; on page 1 there is a next page and no previous page. -/
theorem claim2_pageResult_invariants_witness :
    (({ items := [], page := 1, pageSize := 20, totalItems := 50,
        totalPages := 3 } : PageResult Nat).totalPages
        = (50 : Int).fdiv 20 + (if 0 < (50 : Int) % 20 then 1 else 0))
    ∧ (({ items := [], page := 1, pageSize := 20, totalItems := 50,
          totalPages := 3 } : PageResult Nat).HasNext = true
        ↔ (1 : Int) < 3)
    ∧ (({ items := [], page := 1, pageSize := 20, totalItems := 50,
          totalPages := 3 } : PageResult Nat).HasPrev = true
        ↔ (1 : Int) < 1) :=
  claim2_pageResult_invariants ([] : List Nat) 1 20 50 (by decide) _ rfl

/-- C3: page-request construction fails with the invalid-page error for
any page below 1 (pageSize notwithstanding, so page errors take
precedence), fails with the invalid-page-size error when the page is fine
but the size is outside 1..1000, and succeeds otherwise. -/
theorem claim3_newPageRequest_validation (page pageSize : Int) :
    (page < 1 → NewPageRequest page pageSize = .error .invalidPage)
    ∧ (1 ≤ page → (pageSize < 1 ∨ MaxPageSize < pageSize) →
        NewPageRequest page pageSize = .error .invalidPageSize)
    ∧ (1 ≤ page → 1 ≤ pageSize → pageSize ≤ MaxPageSize →
        NewPageRequest page pageSize
          = .ok { page := page, pageSize := pageSize, sort := [] }) := by
  unfold NewPageRequest
  simp only [MaxPageSize]
  refine ⟨?_, ?_, ?_⟩ <;> intros <;> split_ifs <;> first | rfl | omega

/-- C3 (witness): page 0 with an oversize page size errors on the page
(precedence), a valid page with size 0 errors on the size, and (3, 10)
succeeds. -/
theorem claim3_newPageRequest_validation_witness :
    NewPageRequest 0 5000 = .error .invalidPage
    ∧ NewPageRequest 1 0 = .error .invalidPageSize
    ∧ NewPageRequest 3 10 = .ok { page := 3, pageSize := 10, sort := [] } :=
  ⟨(claim3_newPageRequest_validation 0 5000).1 (by decide),
   (claim3_newPageRequest_validation 1 0).2.1 (by decide) (by decide),
   (claim3_newPageRequest_validation 3 10).2.2 (by decide) (by decide) (by decide)⟩

/-- C4: encoding no values yields the empty token, decoding the empty
token succeeds with no values, and decoding any non-empty token rejected
by base64 yields the invalid-cursor error. -/
theorem claim4_cursor_edge_cases :
    EncodeCursor [] = []
    ∧ DecodeCursor [] = .ok []
    ∧ ∀ s : GoString, s ≠ [] → base64URLDecodeString s = none →
        DecodeCursor s = .error .invalidCursor := by
  refine ⟨rfl, rfl, ?_⟩
  intro s hs hdec
  unfold DecodeCursor
  rw [if_neg hs, hdec]

/-- C4 (witness): the byte string "!!!" is not valid base64url, and
decoding it yields the invalid-cursor error. -/
theorem claim4_cursor_edge_cases_witness :
    DecodeCursor [33, 33, 33] = .error .invalidCursor :=
  claim4_cursor_edge_cases.2.2 [33, 33, 33] (by decide) rfl

/-- C5: the single-value decoder fails with the invalid-cursor error
whenever the underlying decode succeeds with a value count other than
one, and returns the value when the count is exactly one. -/
theorem claim5_decodeCursorSingle (t : GoString) :
    (∀ values, DecodeCursor t = .ok values → values.length ≠ 1 →
        DecodeCursorSingle t = .error .invalidCursor)
    ∧ (∀ v, DecodeCursor t = .ok [v] → DecodeCursorSingle t = .ok v) := by
  constructor
  · intro values h hl
    unfold DecodeCursorSingle
    rw [h]
    simp [hl]
  · intro v h
    unfold DecodeCursorSingle
    rw [h]
    simp

/-- C5 (witness): decoding the encoded pair ("a", "b") through the
single-value decoder fails with the invalid-cursor error, while the
encoded singleton "a" decodes to "a". -/
theorem claim5_decodeCursorSingle_witness :
    DecodeCursorSingle (EncodeCursor [[97], [98]]) = .error .invalidCursor
    ∧ DecodeCursorSingle (EncodeCursor [[97]]) = .ok [97] :=
  ⟨(claim5_decodeCursorSingle (EncodeCursor [[97], [98]])).1 [[97], [98]] rfl (by decide),
   (claim5_decodeCursorSingle (EncodeCursor [[97]])).2 [97] rfl⟩

/-- C6: `WithSort` replaces rather than appends on both request kinds:
re-sorting with `b` after `a` equals sorting with `b` alone, the sort of
the result is exactly `b`, and every other field is preserved. In this
embedding requests are immutable values, so the original request is
unchanged by construction. -/
theorem claim6_withSort_replaces (p : PageRequest) (c : CursorRequest)
    (a b : List SortOption) :
    ((p.WithSort a).WithSort b = p.WithSort b)
    ∧ ((p.WithSort b).sort = b)
    ∧ ((p.WithSort b).page = p.page)
    ∧ ((p.WithSort b).pageSize = p.pageSize)
    ∧ ((c.WithSort a).WithSort b = c.WithSort b)
    ∧ ((c.WithSort b).sort = b)
    ∧ ((c.WithSort b).cursor = c.cursor)
    ∧ ((c.WithSort b).pageSize = c.pageSize) :=
  ⟨rfl, rfl, rfl, rfl, rfl, rfl, rfl, rfl⟩

/-- C7: sort-option construction is total; an unrecognized direction is
normalized to ascending (so `IsAscending` holds), and a recognized
direction is kept verbatim. -/
theorem claim7_newSortOption_leniency (field : GoString) (direction : SortDirection) :
    (direction ≠ SortAsc → direction ≠ SortDesc →
        NewSortOption field direction = { field := field, direction := SortAsc }
        ∧ (NewSortOption field direction).IsAscending = true)
    ∧ (direction = SortAsc ∨ direction = SortDesc →
        NewSortOption field direction = { field := field, direction := direction }) := by
  constructor
  · intro h1 h2
    unfold NewSortOption
    rw [if_pos ⟨h1, h2⟩]
    exact ⟨rfl, by simp [SortOption.IsAscending]⟩
  · intro h
    unfold NewSortOption
    rw [if_neg (by tauto)]

/-- C7 (witness): the direction "bogus" is normalized to ascending. -/
theorem claim7_newSortOption_leniency_witness :
    NewSortOption [] [98, 111, 103, 117, 115]
        = { field := [], direction := SortAsc }
    ∧ (NewSortOption [] [98, 111, 103, 117, 115]).IsAscending = true :=
  (claim7_newSortOption_leniency [] [98, 111, 103, 117, 115]).1 (by decide) (by decide)

/-- C8: under the precondition of a positive page size the result builder
is total — the division-by-zero branch of the embedding (Go's panic) is
unreachable, for every items, page and total count. -/
theorem claim8_newPageResult_total {T : Type} (items : List T)
    (page pageSize totalItems : Int) (h : 1 ≤ pageSize) :
    ∃ r, NewPageResult items page pageSize totalItems = some r := by
  unfold NewPageResult
  rw [if_neg (by omega)]
  exact ⟨_, rfl⟩

/-- C8 (witness): the builder at page size 1 returns a result. -/
theorem claim8_newPageResult_total_witness :
    ∃ r, NewPageResult ([] : List Nat) 1 1 0 = some r :=
  claim8_newPageResult_total [] 1 1 0 (by decide)

/-- C9: every successfully constructed page request reports the offset
`(page - 1) * pageSize` and the limit `pageSize`. -/
theorem claim9_offset_limit (page pageSize : Int) (r : PageRequest)
    (h : NewPageRequest page pageSize = .ok r) :
    r.Offset = (page - 1) * pageSize ∧ r.Limit = pageSize := by
  unfold NewPageRequest at h
  split_ifs at h
  all_goals simp only [reduceCtorEq, Except.ok.injEq] at h
  subst h
  exact ⟨rfl, rfl⟩

/-- C9 (witness): page 3 with page size 10 gives offset 20 and limit 10. -/
theorem claim9_offset_limit_witness :
    ({ page := 3, pageSize := 10, sort := [] } : PageRequest).Offset
        = ((3 : Int) - 1) * 10
    ∧ ({ page := 3, pageSize := 10, sort := [] } : PageRequest).Limit = 10 :=
  claim9_offset_limit 3 10 _ rfl

/-- C10: a successful decode of a non-empty token never yields an empty
value sequence (splitting always produces at least one piece), and the
single-value decoder rejects the empty token with the invalid-cursor
error instead of returning an empty value. -/
theorem claim10_decode_nonempty (t : GoString) :
    (∀ values, t ≠ [] → DecodeCursor t = .ok values → values ≠ [])
    ∧ DecodeCursorSingle [] = .error .invalidCursor := by
  constructor
  · intro values ht h
    unfold DecodeCursor at h
    rw [if_neg ht] at h
    cases hdec : base64URLDecodeString t with
    | none => rw [hdec] at h; exact absurd h (by simp)
    | some d =>
        rw [hdec] at h
        simp only [Except.ok.injEq] at h
        subst h
        exact List.splitOnP_ne_nil _ d
  · rfl

/-- C10 (witness): the token "AA==" decodes to a NUL byte, splitting into
two empty values — a non-empty sequence. -/
theorem claim10_decode_nonempty_witness :
    ([[], []] : List GoString) ≠ [] :=
  (claim10_decode_nonempty [65, 65, 61, 61]).1 [[], []] (by decide) rfl

end GoDDD


